import Mathlib

/-!
Shallow embedding of the Air Piano gesture-to-MIDI state machine from
`air_piano.py` (class `EnhancedAirPiano` plus `MusicTheoryHelper`).

Modelling conventions:
* MIDI output is modelled as a list of `MidiEvent` values returned next to the
  updated state; `self.player.note_on / note_off / write_short (pitch bend)`
  become list elements.
* Python's `set` (`active_notes`, `active_keys`) is modelled as `Finset`
  (duplicate-freedom is part of the type, exactly as for a Python set).
  Iteration over a Python set has unspecified order; we iterate in ascending
  order (`ascList`), which is one of the admissible orders.
* Python floats are modelled as rationals where only field arithmetic occurs
  (pitch bend, timestamps) and as reals where `sqrt` and a fractional power
  occur (`calculate_dynamic_velocity`); `int(x)` is truncation toward zero.
* `threading.Timer` / background threads are modelled by making the delayed
  body a separate step: the echo timers scheduled by `play_chord_enhanced`
  are queued in `pendingEchoes` and fire via `echoFireStep`; the delayed body
  of `stop_chord_enhanced` (after `time.sleep(sustain_time)`) is the step
  `stopChordExpiry`.  Wall-clock timestamps (`time.time() - start`) are an
  input `τ` of each step that records events.
* Python code that raises (`self.scales[missing_key]`, `list.index` on a
  missing element) is modelled with `Option`: `none` is the raising run.
-/

set_option synthInstance.maxSize 2000

namespace AirPiano

/-- A MIDI message sent to the synthesizer: `player.note_on`,
`player.note_off`, or a pitch-bend `write_short(0xE0, lsb, msb)` carrying the
14-bit value that was split into the two 7-bit halves. -/
inductive MidiEvent where
  | noteOn (note velocity : ℕ)
  | noteOff (note velocity : ℕ)
  | pitchBend (value : ℤ)
deriving DecidableEq

/-- The `action` field of a recorded event: the strings `'on'` / `'off'`. -/
inductive RecAction where
  | on
  | off
deriving DecidableEq

/-- One entry of `self.recorded_notes`:
`{'note': n, 'velocity': v, 'time': t, 'action': a}`. -/
structure RecEvent where
  note : ℕ
  velocity : ℕ
  time : ℚ
  action : RecAction
deriving DecidableEq

/-- One scale of `self.scales`: a dict from hand side (`"left"` / `"right"`)
to a dict from finger name to the list of MIDI notes of its chord.  Dicts are
modelled as association lists keeping Python's insertion order. -/
abbrev ScaleMap := List (String × List (String × List ℕ))

/-- `self.prev_states`: dict from hand side to dict from finger name to the
finger's up/down state of the previous frame (0 = down, 1 = up). -/
abbrev PrevStates := List (String × List (String × ℕ))

/-- The `"D_Major"` entry of `self.scales`. -/
def dMajorMap : ScaleMap :=
  [("left",
     [("thumb", [62, 66, 69]), ("index", [64, 67, 71]), ("middle", [66, 69, 73]),
      ("ring", [67, 71, 74]), ("pinky", [69, 73, 76])]),
   ("right",
     [("thumb", [74, 78, 81]), ("index", [76, 79, 83]), ("middle", [78, 81, 85]),
      ("ring", [79, 83, 86]), ("pinky", [81, 85, 88])])]

/-- The `"C_Major"` entry of `self.scales`. -/
def cMajorMap : ScaleMap :=
  [("left",
     [("thumb", [60, 64, 67]), ("index", [62, 65, 69]), ("middle", [64, 67, 71]),
      ("ring", [65, 69, 72]), ("pinky", [67, 71, 74])]),
   ("right",
     [("thumb", [72, 76, 79]), ("index", [74, 77, 81]), ("middle", [76, 79, 83]),
      ("ring", [77, 81, 84]), ("pinky", [79, 83, 86])])]

/-- The `"Pentatonic"` entry of `self.scales`. -/
def pentatonicMap : ScaleMap :=
  [("left",
     [("thumb", [60, 64, 67]), ("index", [62, 67, 69]), ("middle", [64, 69, 72]),
      ("ring", [67, 72, 74]), ("pinky", [69, 74, 77])]),
   ("right",
     [("thumb", [72, 76, 79]), ("index", [74, 79, 81]), ("middle", [76, 81, 84]),
      ("ring", [79, 84, 86]), ("pinky", [81, 86, 89])])]

/-- `self.scales`, in the insertion order of the source. -/
def defaultScales : List (String × ScaleMap) :=
  [("D_Major", dMajorMap), ("C_Major", cMajorMap), ("Pentatonic", pentatonicMap)]

/-- The dict comprehension
`{hand: {finger: 0 for finger in sm[hand]} for hand in sm}` used to build and
reset `self.prev_states`. -/
def mkAllDown (sm : ScaleMap) : PrevStates :=
  sm.map (fun hp => (hp.1, hp.2.map (fun fp => (fp.1, 0))))

/-- Decides whether every finger of every hand side is recorded as down (0)
in a `PrevStates` value. -/
def allDownB (ps : PrevStates) : Bool :=
  ps.all (fun hp => hp.2.all (fun fp => fp.2 == 0))

/-- The mutable fields of `EnhancedAirPiano` that the gesture-to-sound state
machine reads and writes.  UI/camera/device fields are out of scope. -/
structure PianoState where
  currentScale : String
  scales : List (String × ScaleMap)
  prevStates : PrevStates
  activeNotes : Finset ℕ
  activeKeys : Finset String
  pinchChordPlaying : Bool
  recording : Bool
  recordedNotes : List RecEvent
  velocityMultiplier : ℚ
  echoEnabled : Bool
  sustainTime : ℚ
  pinchChordNotes : List ℕ
  pendingEchoes : List (ℕ × ℕ)
deriving DecidableEq

/-- The state set up by `EnhancedAirPiano.__init__` (only the modelled
fields). `pendingEchoes` starts empty: no echo timer is scheduled. -/
def initState : PianoState where
  currentScale := "D_Major"
  scales := defaultScales
  prevStates := mkAllDown dMajorMap
  activeNotes := ∅
  activeKeys := ∅
  pinchChordPlaying := false
  recording := false
  recordedNotes := []
  velocityMultiplier := 1
  echoEnabled := false
  sustainTime := 4 / 5
  pinchChordNotes := [84, 88, 91]
  pendingEchoes := []

/-- `self.scales[self.current_scale]` (`get_current_chords`); `none` models
the `KeyError` raise when the current scale is not a key of the table. -/
def lookupScaleMap (s : PianoState) : Option ScaleMap :=
  s.scales.lookup s.currentScale

/-- Loop body of `play_chord_enhanced`: walk the chord's notes; a note not in
`active_notes` gets a `note_on` at the given velocity, is inserted into
`active_notes`, schedules the two echo timers when echo is enabled and the
note is the chord's first (`i == 0`), and is recorded when recording.  The
echo velocities `int(velocity * 0.7)` / `int(velocity * 0.4)` are the exact
rational truncations `7*v/10` / `2*v/5`. `isFirst` tracks `i == 0`. -/
def playChordGo (velocity : ℕ) (τ : ℚ) (isFirst : Bool) :
    List ℕ → PianoState → PianoState × List MidiEvent
  | [], s => (s, [])
  | note :: rest, s =>
      if note ∈ s.activeNotes then
        playChordGo velocity τ false rest s
      else
        let echoes :=
          if s.echoEnabled && isFirst then
            [(note, 7 * velocity / 10), (note, 2 * velocity / 5)]
          else []
        let recs :=
          if s.recording then [RecEvent.mk note velocity τ RecAction.on] else []
        let s1 : PianoState :=
          { s with activeNotes := insert note s.activeNotes,
                   pendingEchoes := s.pendingEchoes ++ echoes,
                   recordedNotes := s.recordedNotes ++ recs }
        let p := playChordGo velocity τ false rest s1
        (p.1, MidiEvent.noteOn note velocity :: p.2)

/-- `play_chord_enhanced(chord_notes, velocity)` at wall-clock offset `τ`. -/
def playChordEnhanced (chordNotes : List ℕ) (velocity : ℕ) (τ : ℚ)
    (s : PianoState) : PianoState × List MidiEvent :=
  playChordGo velocity τ true chordNotes s

/-- Firing of one scheduled echo timer of `play_chord_enhanced`: the lambda
`(self.play_single_note(n, v), self.active_notes.add(n))` — a `note_on` is
sent unconditionally and the note is (re-)inserted; nothing is recorded. -/
def echoFireStep (s : PianoState) : PianoState × List MidiEvent :=
  match s.pendingEchoes with
  | [] => (s, [])
  | (note, v) :: rest =>
      ({ s with activeNotes := insert note s.activeNotes, pendingEchoes := rest },
       [MidiEvent.noteOn note v])

/-- Loop body of `stop_after_delay` inside `stop_chord_enhanced`: each chord
note still in `active_notes` gets `note_off(note, 127)`, is discarded from
`active_notes`, and an `action='off'` event (velocity 0) is recorded when
recording. -/
def stopChordGo (τ : ℚ) : List ℕ → PianoState → PianoState × List MidiEvent
  | [], s => (s, [])
  | note :: rest, s =>
      if note ∈ s.activeNotes then
        let recs :=
          if s.recording then [RecEvent.mk note 0 τ RecAction.off] else []
        let s1 : PianoState :=
          { s with activeNotes := s.activeNotes.erase note,
                   recordedNotes := s.recordedNotes ++ recs }
        let p := stopChordGo τ rest s1
        (p.1, MidiEvent.noteOff note 127 :: p.2)
      else stopChordGo τ rest s

/-- The sustain-expiry release: the body of `stop_chord_enhanced`'s worker
thread after `time.sleep(self.sustain_time)` has elapsed, at wall-clock
offset `τ`. -/
def stopChordExpiry (chordNotes : List ℕ) (τ : ℚ) (s : PianoState) :
    PianoState × List MidiEvent :=
  stopChordGo τ chordNotes s

/-- Loop of `handle_pinch_gesture`'s pinch-onset branch: each pinch-chord
note not in `active_notes` gets `note_on(note, 120)`, is inserted, and is
recorded with velocity 120 when recording. -/
def pinchStartGo (τ : ℚ) : List ℕ → PianoState → PianoState × List MidiEvent
  | [], s => (s, [])
  | note :: rest, s =>
      if note ∈ s.activeNotes then pinchStartGo τ rest s
      else
        let recs :=
          if s.recording then [RecEvent.mk note 120 τ RecAction.on] else []
        let s1 : PianoState :=
          { s with activeNotes := insert note s.activeNotes,
                   recordedNotes := s.recordedNotes ++ recs }
        let p := pinchStartGo τ rest s1
        (p.1, MidiEvent.noteOn note 120 :: p.2)

/-- The pinch-chord onset of `handle_pinch_gesture`: when the pinch-chord
flag is not yet set, play every pinch-chord note not already active (velocity
120) and set the flag.  (The per-frame pitch-bend send that follows is
modelled by `pitchBendValue` below.) -/
def pinchStartChord (τ : ℚ) (s : PianoState) : PianoState × List MidiEvent :=
  if s.pinchChordPlaying then (s, [])
  else
    let p := pinchStartGo τ s.pinchChordNotes s
    ({ p.1 with pinchChordPlaying := true }, p.2)

/-- Loop of the pinch-stop branch at the end of `process_hands`: each
pinch-chord note still active gets `note_off(note, 127)` and is discarded. -/
def pinchStopGo : List ℕ → PianoState → PianoState × List MidiEvent
  | [], s => (s, [])
  | note :: rest, s =>
      if note ∈ s.activeNotes then
        let s1 : PianoState := { s with activeNotes := s.activeNotes.erase note }
        let p := pinchStopGo rest s1
        (p.1, MidiEvent.noteOff note 127 :: p.2)
      else pinchStopGo rest s

/-- The pinch-stop block of `process_hands` (runs when the flag was set and
no hand pinches this frame): turn the pinch-chord notes off, clear the flag,
and reset the pitch bend to the 8192 centre. -/
def pinchStopChord (s : PianoState) : PianoState × List MidiEvent :=
  let p := pinchStopGo s.pinchChordNotes s
  ({ p.1 with pinchChordPlaying := false }, p.2 ++ [MidiEvent.pitchBend 8192])

/-- The elements of a multiset as an ascending list (insertion sort of any
representative; well-defined because sorting is permutation-invariant). -/
def msAscList (m : Multiset ℕ) : List ℕ :=
  Quot.liftOn m (fun l => List.insertionSort (· ≤ ·) l)
    (fun l1 l2 h =>
      List.eq_of_perm_of_sorted
        ((List.perm_insertionSort _ l1).trans
          (h.trans (List.perm_insertionSort _ l2).symm))
        (List.sorted_insertionSort _ l1) (List.sorted_insertionSort _ l2))

/-- Iteration order chosen for `for note in list(self.active_notes)`: Python
set iteration order is unspecified, so the ascending order is one admissible
refinement of it. -/
def ascList (t : Finset ℕ) : List ℕ := msAscList t.val

/-- Replay of one recorded event inside `playback_thread_func`: `'on'` sends
`note_on(note, velocity)` and adds the note; `'off'` sends
`note_off(note, velocity)` and discards it. -/
def playbackEvent (e : RecEvent) (s : PianoState) : PianoState × List MidiEvent :=
  match e.action with
  | RecAction.on =>
      ({ s with activeNotes := insert e.note s.activeNotes },
       [MidiEvent.noteOn e.note e.velocity])
  | RecAction.off =>
      ({ s with activeNotes := s.activeNotes.erase e.note },
       [MidiEvent.noteOff e.note e.velocity])

/-- The flush loops of `playback_thread_func` (before and after replay):
`note_off(note, 127)` for every note of `active_notes`, then the set is
empty.  Set iteration order is modelled as ascending.  (The pre-replay
`active_keys.clear()` is a purely visual reset and is not part of this
step.) -/
def flushActiveNotes (s : PianoState) : PianoState × List MidiEvent :=
  ({ s with activeNotes := ∅ },
   (ascList s.activeNotes).map (fun n => MidiEvent.noteOff n 127))

/-- The no-hands branch of `run`'s main loop: reset `prev_states` to all-down
for the current scale, clear `active_keys`, immediately `note_off(note, 127)`
and discard every active note, and when the pinch flag was set clear it and
re-centre the pitch bend.  `none` models the `KeyError` raise of
`get_current_chords` on an unknown current scale. -/
def noHandsFrame (s : PianoState) : Option (PianoState × List MidiEvent) :=
  match lookupScaleMap s with
  | none => none
  | some sm =>
      let offs := (ascList s.activeNotes).map (fun n => MidiEvent.noteOff n 127)
      let s2 : PianoState :=
        { s with prevStates := mkAllDown sm, activeKeys := ∅, activeNotes := ∅ }
      if s.pinchChordPlaying then
        some ({ s2 with pinchChordPlaying := false },
              offs ++ [MidiEvent.pitchBend 8192])
      else
        some (s2, offs)

/-- `cleanup`: `note_off(note, 127)` for every active note, then
`active_notes.clear()`.  (Camera, window and MIDI-device teardown is out of
the modelled state.) -/
def cleanup (s : PianoState) : PianoState × List MidiEvent :=
  ({ s with activeNotes := ∅ },
   (ascList s.activeNotes).map (fun n => MidiEvent.noteOff n 127))

/-- `cycle_scale`: advance `current_scale` to the next key of `self.scales`
(circularly), rebuild `prev_states` all-down for the new scale, and clear
`active_keys`.  No MIDI message is sent, hence the always-empty event list.
`none` models the `ValueError` raise of `list.index` when the current scale
is not among the keys. -/
def cycleScale (s : PianoState) : Option (PianoState × List MidiEvent) :=
  let keys := s.scales.map Prod.fst
  match keys.findIdx? (fun k => k == s.currentScale) with
  | none => none
  | some i =>
      let newScale := keys.getD ((i + 1) % keys.length) ""
      match s.scales.lookup newScale with
      | none => none
      | some sm =>
          some ({ s with currentScale := newScale,
                         prevStates := mkAllDown sm,
                         activeKeys := ∅ }, [])

/-- `cycleScale` projected to the successor state. -/
def cycleScaleState (s : PianoState) : Option PianoState :=
  Option.map Prod.fst (cycleScale s)

/-- The `'e'` key of `handle_keyboard_input`: toggle the echo effect. -/
def toggleEcho (s : PianoState) : PianoState :=
  { s with echoEnabled := !s.echoEnabled }

/-- The MIDI notes that receive a `note_on` in an event list. -/
def noteOnNotes (evs : List MidiEvent) : Finset ℕ :=
  evs.foldr
    (fun e acc =>
      match e with
      | MidiEvent.noteOn n _ => insert n acc
      | _ => acc) ∅

/-- The MIDI notes that receive a `note_off` in an event list. -/
def noteOffNotes (evs : List MidiEvent) : Finset ℕ :=
  evs.foldr
    (fun e acc =>
      match e with
      | MidiEvent.noteOff n _ => insert n acc
      | _ => acc) ∅

/-- Conformance of one step with the `ActiveNoteSet` invariant: every note
the step adds to `active_notes` receives a `note_on` among the step's
messages, and every note it removes receives a `note_off`. -/
def okStep (s : PianoState) (p : PianoState × List MidiEvent) : Prop :=
  p.1.activeNotes \ s.activeNotes ⊆ noteOnNotes p.2 ∧
  s.activeNotes \ p.1.activeNotes ⊆ noteOffNotes p.2

/-- `okStep` lifted to steps that can raise (`Option` result); a raising run
performs no update at all. -/
def okStepO (s : PianoState) (o : Option (PianoState × List MidiEvent)) : Prop :=
  match o with
  | none => True
  | some p => okStep s p

/-- The note-on messages `pinchStartGo` sends, as a function of the already
active notes only (helper for stating velocity-independence). -/
def pinchOnEvents : List ℕ → Finset ℕ → List MidiEvent
  | [], _ => []
  | note :: rest, act =>
      if note ∈ act then pinchOnEvents rest act
      else MidiEvent.noteOn note 120 :: pinchOnEvents rest (insert note act)

/-- Decides that every message of a list is a `note_on` with velocity 120. -/
def allPinchOn120 (evs : List MidiEvent) : Bool :=
  evs.all (fun e =>
    match e with
    | MidiEvent.noteOn _ v => v == 120
    | _ => false)

/-- Decides that every recorded event of a list carries velocity 120. -/
def recVel120 (l : List RecEvent) : Bool :=
  l.all (fun e => e.velocity == 120)

/-- Python's `np.clip(x, lo, hi)` on integers. -/
def clipZ (v lo hi : ℤ) : ℤ := max lo (min v hi)

/-- Python's `np.clip(x, lo, hi)` on rationals. -/
def clipQ (x lo hi : ℚ) : ℚ := max lo (min x hi)

/-- Python's `np.clip(x, lo, hi)` on reals. -/
noncomputable def clipR (x lo hi : ℝ) : ℝ := max lo (min x hi)

/-- Python's `int(x)` on a rational: truncation toward zero. -/
def intTruncQ (x : ℚ) : ℤ := if 0 ≤ x then ⌊x⌋ else -⌊-x⌋

/-- Python's `int(x)` on a real: truncation toward zero. -/
noncomputable def intTruncR (x : ℝ) : ℤ := if 0 ≤ x then ⌊x⌋ else -⌊-x⌋

/-- `calculate_dynamic_velocity(hand_landmarks, finger_index)`: landmarks are
(x, y) pixel positions; the result is a MIDI velocity.  The guard
`not hand_landmarks or len(hand_landmarks) <= 20` is `length ≤ 20` (an empty
list has length 0); `finger_index not in finger_landmarks` is `5 ≤ idx`; the
dict `finger_landmarks` is the tip/base pair chain below.  The global
`self.velocity_multiplier` is taken as the explicit argument `mult`. -/
noncomputable def calculate_dynamic_velocity
    (handLandmarks : List (ℝ × ℝ)) (fingerIndex : ℕ) (mult : ℝ) : ℤ :=
  if handLandmarks.length ≤ 20 then 80
  else if 5 ≤ fingerIndex then 80
  else
    let tipBase : ℕ × ℕ :=
      if fingerIndex = 0 then (4, 2)
      else if fingerIndex = 1 then (8, 5)
      else if fingerIndex = 2 then (12, 9)
      else if fingerIndex = 3 then (16, 13)
      else (20, 17)
    let tipPos := handLandmarks.getD tipBase.1 (0, 0)
    let basePos := handLandmarks.getD tipBase.2 (0, 0)
    let distance :=
      Real.sqrt ((tipPos.1 - basePos.1) ^ 2 + (tipPos.2 - basePos.2) ^ 2)
    let normalized := clipR ((distance - 20) / (150 - 20)) 0 1
    let velocityCurve := normalized ^ (0.6 : ℝ)
    let velocity := intTruncR (20 + velocityCurve * 107 * mult)
    clipZ velocity 20 127

/-- `center_x = x + w // 2` of `handle_pinch_gesture` (bbox fields are
non-negative pixel counts, so Python floor division is `Nat` division). -/
def bboxCenterX (x w : ℕ) : ℕ := x + w / 2

/-- The pitch-bend value of `handle_pinch_gesture`:
`int(np.clip(center_x / screen_width, 0, 1) * 16383)`. -/
def pitchBendValue (centerX screenWidth : ℕ) : ℤ :=
  intTruncQ (clipQ ((centerX : ℚ) / (screenWidth : ℚ)) 0 1 * 16383)

/-- The `note_names` table of `MusicTheoryHelper.note_to_name` (split in
three to keep lines short; the concatenation is the source's 12-entry
list). -/
def noteNames : List String :=
  ["C", "C#", "D", "D#"] ++ ["E", "F", "F#", "G"] ++ ["G#", "A", "A#", "B"]

namespace MusicTheoryHelper

/-- `MusicTheoryHelper.note_to_name(midi_note)`: note name with octave,
`octave = midi_note // 12 - 1` (an integer, since octave -1 occurs). -/
def note_to_name (midiNote : ℕ) : String :=
  let octave : ℤ := (midiNote / 12 : ℕ) - 1
  noteNames.getD (midiNote % 12) "" ++ toString octave

end MusicTheoryHelper

/-- The comprehension
`''.join([c for c in raw if not c.isdigit() and c not in ['-', '+']])` that
`get_chord_name` applies to the raw root name. -/
def stripOctave (s : String) : String :=
  String.mk (s.data.filter (fun c => !c.isDigit && c != '-' && c != '+'))

/-- `get_chord_name(notes)`: display name of a chord.  `sorted(notes)` is the
ascending (insertion) sort; list indexing on the sorted list is `getD` (all
accesses are in bounds under the length tests). -/
def get_chord_name (notes : List ℕ) : String :=
  if notes = [] then "---"
  else
    let sortedNotes := List.insertionSort (· ≤ ·) notes
    let rootName := stripOctave (MusicTheoryHelper.note_to_name (sortedNotes.headD 0))
    if sortedNotes.length = 1 then rootName
    else if sortedNotes.length = 2 then
      let interval := sortedNotes.getD 1 0 - sortedNotes.getD 0 0
      if interval = 3 then rootName ++ " m3"
      else if interval = 4 then rootName ++ " M3"
      else if interval = 7 then rootName ++ " P5"
      else rootName ++ " Pair"
    else
      let interval1 := sortedNotes.getD 1 0 - sortedNotes.getD 0 0
      let interval2 := sortedNotes.getD 2 0 - sortedNotes.getD 1 0
      if interval1 = 4 ∧ interval2 = 3 then rootName ++ " Maj"
      else if interval1 = 3 ∧ interval2 = 4 then rootName ++ " Min"
      else if interval1 = 5 ∧ interval2 = 2 then rootName ++ " Sus4"
      else if interval1 = 2 ∧ interval2 = 5 then rootName ++ " Sus2"
      else rootName ++ " Triad"

/-- Chord-name suffix for two notes as the specification words it: interval
3, 4, 7 give m3, M3, P5, anything else the generic Pair. -/
def specPairSuffix (d : ℕ) : String :=
  if d = 3 then " m3"
  else if d = 4 then " M3"
  else if d = 7 then " P5"
  else " Pair"

/-- Chord-name suffix for three or more notes as the specification words it:
the first two sorted intervals (4,3), (3,4), (5,2), (2,5) give Maj, Min,
Sus4, Sus2, anything else the generic Triad. -/
def specTriadSuffix (i1 i2 : ℕ) : String :=
  if i1 = 4 ∧ i2 = 3 then " Maj"
  else if i1 = 3 ∧ i2 = 4 then " Min"
  else if i1 = 5 ∧ i2 = 2 then " Sus4"
  else if i1 = 2 ∧ i2 = 5 then " Sus2"
  else " Triad"

/-- A state with one sounding note, as left after a chord press whose sustain
release already fired for the other chord notes; used as a concrete test
state. -/
def activeNote62State : PianoState :=
  { initState with activeNotes := {62} }

/-- The state reached from `initState` by the `'e'` key (echo on) followed by
a left-thumb press of the D-major chord (velocity 90 from the velocity
model): note 62 is sounding and two echo timers for it are pending. -/
def echoCexState : PianoState :=
  (playChordEnhanced [62, 66, 69] 90 0 (toggleEcho initState)).1

/-- A tracking-loss test state: one sounding note and the pinch chord flag
set. -/
def c2WitnessState : PianoState :=
  { initState with activeNotes := {62}, pinchChordPlaying := true }

/-- What the no-hands branch produces on `c2WitnessState`. -/
def c2WitnessRes : PianoState × List MidiEvent :=
  (initState, [MidiEvent.noteOff 62 127, MidiEvent.pitchBend 8192])

/-- What `cycle_scale` produces on `initState`. -/
def c4WitnessRes : PianoState × List MidiEvent :=
  ({ initState with currentScale := "C_Major", prevStates := mkAllDown cMajorMap }, [])

/-- The successor state `cycle_scale` produces on `activeNote62State`: the
scale advances and the finger states reset, but `activeNotes` is untouched. -/
def c4CexResState : PianoState :=
  { activeNote62State with currentScale := "C_Major", prevStates := mkAllDown cMajorMap }

/-- Whether every previous finger state of a state is down. -/
def prevAllDown (t : PianoState) : Bool := allDownB t.prevStates

@[simp] theorem noteOnNotes_nil : noteOnNotes [] = ∅ := rfl

@[simp] theorem noteOnNotes_cons_on (n v : ℕ) (l : List MidiEvent) :
    noteOnNotes (MidiEvent.noteOn n v :: l) = insert n (noteOnNotes l) := rfl

@[simp] theorem noteOnNotes_cons_off (n v : ℕ) (l : List MidiEvent) :
    noteOnNotes (MidiEvent.noteOff n v :: l) = noteOnNotes l := rfl

@[simp] theorem noteOnNotes_cons_pb (z : ℤ) (l : List MidiEvent) :
    noteOnNotes (MidiEvent.pitchBend z :: l) = noteOnNotes l := rfl

@[simp] theorem noteOffNotes_nil : noteOffNotes [] = ∅ := rfl

@[simp] theorem noteOffNotes_cons_on (n v : ℕ) (l : List MidiEvent) :
    noteOffNotes (MidiEvent.noteOn n v :: l) = noteOffNotes l := rfl

@[simp] theorem noteOffNotes_cons_off (n v : ℕ) (l : List MidiEvent) :
    noteOffNotes (MidiEvent.noteOff n v :: l) = insert n (noteOffNotes l) := rfl

@[simp] theorem noteOffNotes_cons_pb (z : ℤ) (l : List MidiEvent) :
    noteOffNotes (MidiEvent.pitchBend z :: l) = noteOffNotes l := rfl

theorem noteOnNotes_append (l1 l2 : List MidiEvent) :
    noteOnNotes (l1 ++ l2) = noteOnNotes l1 ∪ noteOnNotes l2 := by
  induction l1 with
  | nil => simp
  | cons e l ih => cases e <;> simp [ih, Finset.insert_union]

theorem noteOffNotes_append (l1 l2 : List MidiEvent) :
    noteOffNotes (l1 ++ l2) = noteOffNotes l1 ∪ noteOffNotes l2 := by
  induction l1 with
  | nil => simp
  | cons e l ih => cases e <;> simp [ih, Finset.insert_union]

theorem noteOffNotes_map_off (l : List ℕ) :
    noteOffNotes (l.map (fun n => MidiEvent.noteOff n 127)) = l.toFinset := by
  induction l with
  | nil => rfl
  | cons n l ih => simp [ih]

theorem pitchBend_not_mem_map_off (z : ℤ) (l : List ℕ) :
    MidiEvent.pitchBend z ∉ l.map (fun n => MidiEvent.noteOff n 127) := by
  simp [List.mem_map]

/-- A step that leaves the active-note set unchanged satisfies the invariant
whatever it sends. -/
theorem okStep_of_active_eq {s : PianoState} (t : PianoState) (evs : List MidiEvent)
    (h : t.activeNotes = s.activeNotes) : okStep s (t, evs) := by
  constructor <;> simp [h, Finset.sdiff_self]

/-- Invariant-conforming steps compose, with the event lists appended. -/
theorem okStep_comp {s1 : PianoState} {s2 s3 : PianoState}
    {a b : List MidiEvent} (h1 : okStep s1 (s2, a)) (h2 : okStep s2 (s3, b)) :
    okStep s1 (s3, a ++ b) := by
  obtain ⟨h1on, h1off⟩ := h1
  obtain ⟨h2on, h2off⟩ := h2
  constructor
  · intro a ha
    rw [Finset.mem_sdiff] at ha
    rw [noteOnNotes_append, Finset.mem_union]
    by_cases hmid : a ∈ s2.activeNotes
    · exact Or.inl (h1on (Finset.mem_sdiff.mpr ⟨hmid, ha.2⟩))
    · exact Or.inr (h2on (Finset.mem_sdiff.mpr ⟨ha.1, hmid⟩))
  · intro a ha
    rw [Finset.mem_sdiff] at ha
    rw [noteOffNotes_append, Finset.mem_union]
    by_cases hmid : a ∈ s2.activeNotes
    · exact Or.inr (h2off (Finset.mem_sdiff.mpr ⟨hmid, ha.2⟩))
    · exact Or.inl (h1off (Finset.mem_sdiff.mpr ⟨ha.1, hmid⟩))

theorem okStep_playChordGo (v : ℕ) (τ : ℚ) (b : Bool) (chord : List ℕ)
    (s : PianoState) : okStep s (playChordGo v τ b chord s) := by
  induction chord generalizing s b with
  | nil => exact okStep_of_active_eq s [] rfl
  | cons n rest ih =>
      rw [playChordGo]
      by_cases hn : n ∈ s.activeNotes
      · simpa [hn] using ih false s
      · simp only [hn, if_false, if_neg]
        refine okStep_comp (a := [MidiEvent.noteOn n v]) ?_ (ih false _)
        constructor
        · intro a ha
          simp only [Finset.mem_sdiff, Finset.mem_insert] at ha
          rcases ha.1 with h | h
          · simp [noteOnNotes, h]
          · exact absurd h ha.2
        · intro a ha
          simp only [Finset.mem_sdiff, Finset.mem_insert, not_or] at ha
          exact absurd ha.1 ha.2.2

theorem okStep_stopChordGo (τ : ℚ) (chord : List ℕ) (s : PianoState) :
    okStep s (stopChordGo τ chord s) := by
  induction chord generalizing s with
  | nil => exact okStep_of_active_eq s [] rfl
  | cons n rest ih =>
      rw [stopChordGo]
      by_cases hn : n ∈ s.activeNotes
      · simp only [hn, if_true]
        refine okStep_comp (a := [MidiEvent.noteOff n 127]) ?_ (ih _)
        constructor
        · intro a ha
          simp only [Finset.mem_sdiff, Finset.mem_erase] at ha
          exact absurd ha.1.2 ha.2
        · intro a ha
          simp only [Finset.mem_sdiff, Finset.mem_erase, not_and] at ha
          have : a = n := by
            by_contra hne
            exact (ha.2 hne) ha.1
          simp [noteOffNotes, this]
      · simpa [hn] using ih s

theorem okStep_pinchStartGo (τ : ℚ) (notes : List ℕ) (s : PianoState) :
    okStep s (pinchStartGo τ notes s) := by
  induction notes generalizing s with
  | nil => exact okStep_of_active_eq s [] rfl
  | cons n rest ih =>
      rw [pinchStartGo]
      by_cases hn : n ∈ s.activeNotes
      · simpa [hn] using ih s
      · simp only [hn, if_neg, if_false]
        refine okStep_comp (a := [MidiEvent.noteOn n 120]) ?_ (ih _)
        constructor
        · intro a ha
          simp only [Finset.mem_sdiff, Finset.mem_insert] at ha
          rcases ha.1 with h | h
          · simp [noteOnNotes, h]
          · exact absurd h ha.2
        · intro a ha
          simp only [Finset.mem_sdiff, Finset.mem_insert, not_or] at ha
          exact absurd ha.1 ha.2.2

theorem okStep_pinchStopGo (notes : List ℕ) (s : PianoState) :
    okStep s (pinchStopGo notes s) := by
  induction notes generalizing s with
  | nil => exact okStep_of_active_eq s [] rfl
  | cons n rest ih =>
      rw [pinchStopGo]
      by_cases hn : n ∈ s.activeNotes
      · simp only [hn, if_true]
        refine okStep_comp (a := [MidiEvent.noteOff n 127]) ?_ (ih _)
        constructor
        · intro a ha
          simp only [Finset.mem_sdiff, Finset.mem_erase] at ha
          exact absurd ha.1.2 ha.2
        · intro a ha
          simp only [Finset.mem_sdiff, Finset.mem_erase, not_and] at ha
          have : a = n := by
            by_contra hne
            exact (ha.2 hne) ha.1
          simp [noteOffNotes, this]
      · simpa [hn] using ih s

theorem mem_ascList {a : ℕ} (t : Finset ℕ) : a ∈ ascList t ↔ a ∈ t := by
  rcases t with ⟨m, hm⟩
  revert hm
  induction m using Quotient.inductionOn with
  | h l =>
      intro hm
      show a ∈ List.insertionSort (· ≤ ·) l ↔ _
      rw [(List.perm_insertionSort (· ≤ ·) l).mem_iff]
      rw [Finset.mem_mk]
      exact Iff.symm Multiset.mem_coe

theorem toFinset_ascList (t : Finset ℕ) : (ascList t).toFinset = t := by
  ext a
  rw [List.mem_toFinset, mem_ascList]

/-- A step that empties the active-note set while sending `note_off` for the
whole (sorted) set satisfies the invariant. -/
theorem okStep_flush_shape {s : PianoState} (t : PianoState)
    (ha : t.activeNotes = ∅) :
    okStep s (t, (ascList s.activeNotes).map (fun n => MidiEvent.noteOff n 127)) := by
  constructor
  · simp [ha]
  · intro a haa
    rw [Finset.mem_sdiff] at haa
    rw [noteOffNotes_map_off]
    rw [toFinset_ascList]
    exact haa.1

theorem clipZ_mem (v lo hi : ℤ) (h : lo ≤ hi) :
    lo ≤ clipZ v lo hi ∧ clipZ v lo hi ≤ hi :=
  ⟨le_max_left lo _, max_le h (min_le_right v hi)⟩

theorem allDownB_mkAllDown (sm : ScaleMap) : allDownB (mkAllDown sm) = true := by
  rw [allDownB, mkAllDown, List.all_eq_true]
  intro x hx
  rw [List.mem_map] at hx
  obtain ⟨hp, -, rfl⟩ := hx
  rw [List.all_eq_true]
  intro y hy
  rw [List.mem_map] at hy
  obtain ⟨fp, -, rfl⟩ := hy
  rfl

/-- C1: every operation that mutates the active-note set — chord press,
sustain-expiry release, echo-timer firing, pinch start and stop, playback
replay and its flushes, the no-hands panic stop, and cleanup — adds a note
only together with a `note_on` send and removes a note only together with a
`note_off` send, and after `cleanup` the active-note set is empty.
(Duplicate-freedom of `ActiveNoteSet` is carried by the `Finset` type, the
model of a Python `set`.) -/
theorem activeNoteSet_invariant (s : PianoState) (chord : List ℕ) (v : ℕ)
    (τ : ℚ) (e : RecEvent) :
    okStep s (playChordEnhanced chord v τ s) ∧
    okStep s (stopChordExpiry chord τ s) ∧
    okStep s (echoFireStep s) ∧
    okStep s (pinchStartChord τ s) ∧
    okStep s (pinchStopChord s) ∧
    okStep s (playbackEvent e s) ∧
    okStep s (flushActiveNotes s) ∧
    okStepO s (noHandsFrame s) ∧
    okStep s (cleanup s) ∧
    (cleanup s).1.activeNotes = ∅ := by
  refine ⟨okStep_playChordGo v τ true chord s, okStep_stopChordGo τ chord s,
    ?_, ?_, ?_, ?_, ?_, ?_, ?_, rfl⟩
  · rcases he : s.pendingEchoes with _ | ⟨⟨n, w⟩, rest⟩
    · simpa [echoFireStep, he] using okStep_of_active_eq s [] rfl
    · simp only [echoFireStep, he]
      constructor
      · intro a ha
        simp only [Finset.mem_sdiff, Finset.mem_insert] at ha
        rcases ha.1 with h | h
        · simp [h]
        · exact absurd h ha.2
      · intro a ha
        simp only [Finset.mem_sdiff, Finset.mem_insert, not_or] at ha
        exact absurd ha.1 ha.2.2
  · by_cases hp : s.pinchChordPlaying = true
    · simpa [pinchStartChord, hp] using okStep_of_active_eq s [] rfl
    · have h := okStep_pinchStartGo τ s.pinchChordNotes s
      simp only [pinchStartChord, hp, if_false]
      exact h
  · have h := okStep_pinchStopGo s.pinchChordNotes s
    simp only [pinchStopChord]
    exact okStep_comp h (okStep_of_active_eq _ [MidiEvent.pitchBend 8192] rfl)
  · rcases e with ⟨n, w, t', a⟩
    cases a
    · constructor
      · intro x hx
        simp only [playbackEvent, Finset.mem_sdiff, Finset.mem_insert] at hx
        rcases hx.1 with h | h
        · simp [playbackEvent, h]
        · exact absurd h hx.2
      · intro x hx
        simp only [playbackEvent, Finset.mem_sdiff, Finset.mem_insert, not_or] at hx
        exact absurd hx.1 hx.2.2
    · constructor
      · intro x hx
        simp only [playbackEvent, Finset.mem_sdiff, Finset.mem_erase] at hx
        exact absurd hx.1.2 hx.2
      · intro x hx
        simp only [playbackEvent, Finset.mem_sdiff, Finset.mem_erase, not_and] at hx
        have hxn : x = n := by
          by_contra hne
          exact (hx.2 hne) hx.1
        simp [playbackEvent, hxn]
  · exact okStep_flush_shape _ rfl
  · rcases hl : lookupScaleMap s with _ | sm
    · simp [okStepO, noHandsFrame, hl]
    · by_cases hp : s.pinchChordPlaying = true
      · simp only [okStepO, noHandsFrame, hl, hp, if_true]
        exact okStep_comp (okStep_flush_shape _ rfl)
          (okStep_of_active_eq _ [MidiEvent.pitchBend 8192] rfl)
      · simp only [okStepO, noHandsFrame, hl, hp, if_false]
        exact okStep_flush_shape _ rfl
  · exact okStep_flush_shape _ rfl

/-- C2: a frame with zero detected hands resets every previous finger state
to down, clears the active-key set, empties the active-note set while a
`note_off` is sent for every note that was in it (immediately, with no
sustain delay in between), clears the pinch-chord flag, and sends a
pitch-bend reset to 8192 exactly when the flag had been set. -/
theorem noHands_panic_stop (s : PianoState) (r : PianoState × List MidiEvent)
    (h : noHandsFrame s = some r) :
    allDownB r.1.prevStates = true ∧
    r.1.activeKeys = ∅ ∧
    r.1.activeNotes = ∅ ∧
    s.activeNotes ⊆ noteOffNotes r.2 ∧
    r.1.pinchChordPlaying = false ∧
    (MidiEvent.pitchBend 8192 ∈ r.2 ↔ s.pinchChordPlaying = true) := by
  rcases hl : lookupScaleMap s with _ | sm
  · simp [noHandsFrame, hl] at h
  · by_cases hp : s.pinchChordPlaying = true
    · simp only [noHandsFrame, hl, hp, if_true, Option.some.injEq] at h
      subst h
      refine ⟨allDownB_mkAllDown sm, rfl, rfl, ?_, rfl, ?_⟩
      · rw [noteOffNotes_append, noteOffNotes_map_off, toFinset_ascList]
        intro a ha
        simp [ha]
      · simp [hp]
    · simp only [noHandsFrame, hl, hp, Bool.false_eq_true, if_false,
        Option.some.injEq] at h
      subst h
      refine ⟨allDownB_mkAllDown sm, rfl, rfl, ?_, ?_, ?_⟩
      · rw [noteOffNotes_map_off, toFinset_ascList]
      · rfl
      · simp [hp, pitchBend_not_mem_map_off]

/-- C2 witness: on a state with note 62 sounding and the pinch flag set, the
no-hands frame returns to the all-off state, sending the note-off and the
pitch-bend reset. -/
theorem noHands_panic_stop_witness :
    noHandsFrame c2WitnessState = some c2WitnessRes ∧
    (allDownB c2WitnessRes.1.prevStates = true ∧
     c2WitnessRes.1.activeKeys = ∅ ∧
     c2WitnessRes.1.activeNotes = ∅ ∧
     c2WitnessState.activeNotes ⊆ noteOffNotes c2WitnessRes.2 ∧
     c2WitnessRes.1.pinchChordPlaying = false ∧
     (MidiEvent.pitchBend 8192 ∈ c2WitnessRes.2 ↔
       c2WitnessState.pinchChordPlaying = true)) :=
  ⟨rfl, noHands_panic_stop c2WitnessState c2WitnessRes rfl⟩

theorem playChordGo_no_active_noteOn (v w : ℕ) (τ : ℚ) (n : ℕ) :
    ∀ (chord : List ℕ) (b : Bool) (s : PianoState), n ∈ s.activeNotes →
      MidiEvent.noteOn n w ∉ (playChordGo v τ b chord s).2 := by
  intro chord
  induction chord with
  | nil =>
      intro b s _
      simp [playChordGo]
  | cons m rest ih =>
      intro b s h
      rw [playChordGo]
      by_cases hm : m ∈ s.activeNotes
      · rw [if_pos hm]
        exact ih false s h
      · rw [if_neg hm]
        intro hmem
        rcases List.mem_cons.mp hmem with heq | hmem2
        · rw [MidiEvent.noteOn.injEq] at heq
          exact hm (heq.1 ▸ h)
        · exact ih false _ (Finset.mem_insert_of_mem h) hmem2

/-- C3 counterexample: in the reachable state `echoCexState` (initial state,
echo toggled on, left-thumb D-major chord pressed) note 62 is in the
active-note set, yet the next step of the system — the firing of the first
scheduled echo timer — emits a second `note_on` for 62 (at the decayed
velocity `int(90 * 0.7) = 63`) with no `note_off` in between.  This refutes
the claim that no step emits a second note-on for an active note. -/
theorem press_suppression_counterexample :
    62 ∈ echoCexState.activeNotes ∧
    (echoFireStep echoCexState).2 = [MidiEvent.noteOn 62 63] :=
  ⟨by decide, rfl⟩

/-- C3 (amended): while a note is in the active-note set, the chord-press
path (`play_chord_enhanced`) emits no second `note_on` for it at any
velocity; only echo-timer firings and playback replay may re-send a note-on
for a still-active note. -/
theorem press_no_second_noteOn (s : PianoState) (chord : List ℕ)
    (v w : ℕ) (τ : ℚ) (n : ℕ) (h : n ∈ s.activeNotes) :
    MidiEvent.noteOn n w ∉ (playChordEnhanced chord v τ s).2 :=
  playChordGo_no_active_noteOn v w τ n chord true s h

/-- C3 witness: with note 62 already sounding, pressing the left-thumb
D-major chord again sends no `note_on` for 62. -/
theorem press_no_second_noteOn_witness :
    MidiEvent.noteOn 62 90 ∉
      (playChordEnhanced [62, 66, 69] 90 0 activeNote62State).2 :=
  press_no_second_noteOn activeNote62State [62, 66, 69] 90 90 0 62 (by decide)

/-- C4 counterexample: on a state with note 62 sounding, `cycle_scale`
returns successfully with an empty MIDI-message list and note 62 still in
the active-note set — no note-off is sent and nothing is removed, refuting
the claim that a scale change sends note-offs for the active notes and
removes them. -/
theorem cycleScale_counterexample :
    cycleScale activeNote62State = some (c4CexResState, []) ∧
    62 ∈ c4CexResState.activeNotes :=
  ⟨rfl, by decide⟩

/-- C4 (corrected): `cycle_scale` sends no MIDI message and leaves the
active-note set untouched (so no pending scheduled release is cancelled
either); it only advances the scale, resets every previous finger state to
down, and clears the active-key set. -/
theorem cycleScale_preserves_activeNotes (s : PianoState)
    (p : PianoState × List MidiEvent) (h : cycleScale s = some p) :
    p.1.activeNotes = s.activeNotes ∧ p.2 = [] ∧
    allDownB p.1.prevStates = true ∧ p.1.activeKeys = ∅ := by
  simp only [cycleScale] at h
  split at h
  · exact Option.noConfusion h
  · split at h
    · exact Option.noConfusion h
    · rw [Option.some.injEq] at h
      subst h
      exact ⟨rfl, rfl, allDownB_mkAllDown _, rfl⟩

/-- C4 witness: on the initial state, `cycle_scale` advances to C major,
preserving the (empty) active-note set, sending nothing, with the previous
finger states all down and the active keys cleared. -/
theorem cycleScale_preserves_activeNotes_witness :
    cycleScale initState = some c4WitnessRes ∧
    (c4WitnessRes.1.activeNotes = initState.activeNotes ∧ c4WitnessRes.2 = [] ∧
     allDownB c4WitnessRes.1.prevStates = true ∧ c4WitnessRes.1.activeKeys = ∅) :=
  ⟨rfl, cycleScale_preserves_activeNotes initState c4WitnessRes rfl⟩

/-- C9: the sustain-expiry release of a chord none of whose notes is in the
active-note set is a no-op — no note-off is sent, nothing is recorded, the
state is unchanged — and hence running the release twice equals running it
once. -/
theorem release_noop_idempotent (chord : List ℕ) (τ τ2 : ℚ) (s : PianoState)
    (h : ∀ n ∈ chord, n ∉ s.activeNotes) :
    stopChordExpiry chord τ s = (s, []) ∧
    stopChordExpiry chord τ2 ((stopChordExpiry chord τ s).1) =
      ((stopChordExpiry chord τ s).1, []) := by
  have main : ∀ (chord2 : List ℕ) (τ3 : ℚ), (∀ n ∈ chord2, n ∉ s.activeNotes) →
      stopChordExpiry chord2 τ3 s = (s, []) := by
    intro chord2
    induction chord2 with
    | nil =>
        intro τ3 _
        rfl
    | cons n rest ih =>
        intro τ3 hh
        show stopChordGo τ3 (n :: rest) s = (s, [])
        rw [stopChordGo, if_neg (hh n (List.mem_cons_self n rest))]
        exact ih τ3 (fun m hm => hh m (List.mem_cons_of_mem n hm))
  refine ⟨main chord τ h, ?_⟩
  rw [main chord τ h]
  exact main chord τ2 h

/-- C9 witness: releasing the left-thumb D-major chord on the initial state
(no note active) is a no-op, twice as well as once. -/
theorem release_noop_idempotent_witness :
    stopChordExpiry [62, 66, 69] 0 initState = (initState, []) ∧
    stopChordExpiry [62, 66, 69] 1 ((stopChordExpiry [62, 66, 69] 0 initState).1) =
      ((stopChordExpiry [62, 66, 69] 0 initState).1, []) :=
  release_noop_idempotent [62, 66, 69] 0 1 initState (by decide)

theorem pinchStartGo_events (τ : ℚ) :
    ∀ (notes : List ℕ) (s : PianoState),
      (pinchStartGo τ notes s).2 = pinchOnEvents notes s.activeNotes := by
  intro notes
  induction notes with
  | nil =>
      intro s
      rfl
  | cons n rest ih =>
      intro s
      rw [pinchStartGo, pinchOnEvents]
      by_cases hn : n ∈ s.activeNotes
      · rw [if_pos hn, if_pos hn]
        exact ih s
      · rw [if_neg hn, if_neg hn]
        rw [List.cons.injEq]
        exact ⟨rfl, ih _⟩

theorem allPinchOn120_pinchOnEvents :
    ∀ (notes : List ℕ) (act : Finset ℕ),
      allPinchOn120 (pinchOnEvents notes act) = true := by
  intro notes
  induction notes with
  | nil =>
      intro act
      rfl
  | cons n rest ih =>
      intro act
      rw [pinchOnEvents]
      by_cases hn : n ∈ act
      · rw [if_pos hn]
        exact ih act
      · rw [if_neg hn]
        simp only [allPinchOn120, List.all_cons] at ih ⊢
        rw [ih]
        rfl

theorem pinchStartGo_recorded (τ : ℚ) :
    ∀ (notes : List ℕ) (s : PianoState), ∃ t : List RecEvent,
      (pinchStartGo τ notes s).1.recordedNotes = s.recordedNotes ++ t ∧
      recVel120 t = true := by
  intro notes
  induction notes with
  | nil =>
      intro s
      exact ⟨[], (List.append_nil _).symm, rfl⟩
  | cons n rest ih =>
      intro s
      rw [pinchStartGo]
      by_cases hn : n ∈ s.activeNotes
      · rw [if_pos hn]
        exact ih s
      · rw [if_neg hn]
        obtain ⟨t, ht1, ht2⟩ :=
          ih { s with activeNotes := insert n s.activeNotes,
                      recordedNotes := s.recordedNotes ++
                        (if s.recording then [RecEvent.mk n 120 τ RecAction.on] else []) }
        refine ⟨(if s.recording then [RecEvent.mk n 120 τ RecAction.on] else []) ++ t,
          ?_, ?_⟩
        · rw [ht1, List.append_assoc]
        · rw [recVel120, List.all_append]
          rw [recVel120] at ht2
          rw [ht2]
          by_cases hr : s.recording = true <;> simp [hr, recVel120]

/-- C10: the pinch-chord onset sends (and, when recording, records) its
notes with the fixed velocity 120, and the emitted MIDI messages are
independent of the global velocity multiplier. -/
theorem pinch_velocity_fixed (s : PianoState) (τ : ℚ) (q q2 : ℚ) :
    allPinchOn120 (pinchStartChord τ s).2 = true ∧
    recVel120 ((pinchStartChord τ s).1.recordedNotes.drop
      s.recordedNotes.length) = true ∧
    (pinchStartChord τ { s with velocityMultiplier := q }).2 =
      (pinchStartChord τ { s with velocityMultiplier := q2 }).2 := by
  refine ⟨?_, ?_, ?_⟩
  · rw [pinchStartChord]
    by_cases hp : s.pinchChordPlaying = true
    · rw [if_pos hp]
      rfl
    · rw [if_neg hp]
      rw [pinchStartGo_events]
      exact allPinchOn120_pinchOnEvents s.pinchChordNotes s.activeNotes
  · rw [pinchStartChord]
    by_cases hp : s.pinchChordPlaying = true
    · rw [if_pos hp]
      rw [List.drop_length]
      rfl
    · rw [if_neg hp]
      obtain ⟨t, ht1, ht2⟩ := pinchStartGo_recorded τ s.pinchChordNotes s
      show recVel120 (((pinchStartGo τ s.pinchChordNotes s).1.recordedNotes).drop
        s.recordedNotes.length) = true
      rw [ht1, List.drop_left]
      exact ht2
  · rw [pinchStartChord, pinchStartChord]
    by_cases hp : s.pinchChordPlaying = true
    · rw [if_pos hp, if_pos hp]
    · rw [if_neg hp, if_neg hp]
      show (pinchStartGo τ s.pinchChordNotes { s with velocityMultiplier := q }).2 =
        (pinchStartGo τ s.pinchChordNotes { s with velocityMultiplier := q2 }).2
      rw [pinchStartGo_events, pinchStartGo_events]

/-- C5: `calculate_dynamic_velocity` is a pure function whose result always
lies in the MIDI velocity window [20, 127] (for every landmark list, finger
index and multiplier, in particular the multipliers in [0.1, 2.0]); a
landmark list with fewer than 21 points yields the default 80, as does a
finger index outside the five fingers. -/
theorem velocity_bounds_and_defaults (lm : List (ℝ × ℝ)) (idx : ℕ) (m : ℝ) :
    (20 ≤ calculate_dynamic_velocity lm idx m ∧
     calculate_dynamic_velocity lm idx m ≤ 127) ∧
    calculate_dynamic_velocity (lm.take 20) idx m = 80 ∧
    calculate_dynamic_velocity lm (idx + 5) m = 80 := by
  refine ⟨?_, ?_, ?_⟩
  · rw [calculate_dynamic_velocity]
    by_cases h1 : lm.length ≤ 20
    · rw [if_pos h1]
      norm_num
    · rw [if_neg h1]
      by_cases h2 : 5 ≤ idx
      · rw [if_pos h2]
        norm_num
      · rw [if_neg h2]
        exact clipZ_mem _ 20 127 (by norm_num)
  · rw [calculate_dynamic_velocity, if_pos]
    rw [List.length_take]
    exact min_le_left 20 lm.length
  · rw [calculate_dynamic_velocity]
    by_cases h1 : lm.length ≤ 20
    · rw [if_pos h1]
    · rw [if_neg h1, if_pos (Nat.le_add_left 5 idx)]

/-- C7: the pitch-bend value is the clipped, linearly scaled and truncated
horizontal position, always within [0, 16383]; when the hand centre is half
the screen width the value is 8191 or 8192 (the code yields 8191). -/
theorem pitchBend_half_center (c w : ℕ) (hc : 0 < c) :
    (0 ≤ pitchBendValue c w ∧ pitchBendValue c w ≤ 16383) ∧
    (pitchBendValue c (2 * c) = 8191 ∨ pitchBendValue c (2 * c) = 8192) := by
  have hrange : ∀ (cx wx : ℕ), 0 ≤ pitchBendValue cx wx ∧
      pitchBendValue cx wx ≤ 16383 := by
    intro cx wx
    have h0 : (0 : ℚ) ≤ clipQ ((cx : ℚ) / (wx : ℚ)) 0 1 := le_max_left 0 _
    have h1 : clipQ ((cx : ℚ) / (wx : ℚ)) 0 1 ≤ 1 :=
      max_le (by norm_num) (min_le_right _ 1)
    have hp0 : (0 : ℚ) ≤ clipQ ((cx : ℚ) / (wx : ℚ)) 0 1 * 16383 :=
      mul_nonneg h0 (by norm_num)
    have hp1 : clipQ ((cx : ℚ) / (wx : ℚ)) 0 1 * 16383 ≤ 16383 := by
      calc clipQ ((cx : ℚ) / (wx : ℚ)) 0 1 * 16383 ≤ 1 * 16383 := by
            exact mul_le_mul_of_nonneg_right h1 (by norm_num)
        _ = 16383 := by norm_num
    rw [pitchBendValue, intTruncQ, if_pos hp0]
    constructor
    · exact Int.le_floor.mpr (by exact_mod_cast hp0)
    · have hmono := Int.floor_mono hp1
      rw [show ((16383 : ℚ)) = ((16383 : ℤ) : ℚ) by norm_num,
        Int.floor_intCast] at hmono
      exact hmono
  refine ⟨hrange c w, Or.inl ?_⟩
  have hcq : (c : ℚ) ≠ 0 := Nat.cast_ne_zero.mpr hc.ne'
  have hdiv : ((c : ℕ) : ℚ) / (((2 * c : ℕ) : ℕ) : ℚ) = 1 / 2 := by
    push_cast
    rw [mul_comm]
    rw [div_eq_div_iff (by positivity) (by norm_num)]
    ring
  rw [pitchBendValue, hdiv]
  have hclip : clipQ (1 / 2) 0 1 = 1 / 2 := by
    rw [clipQ, min_eq_left (by norm_num), max_eq_right (by norm_num)]
  rw [hclip, intTruncQ, if_pos (by norm_num)]
  rw [Int.floor_eq_iff]
  norm_num

/-- C7 witness: at centre 640 on a 1280-wide screen the pitch-bend value is
in range and equals 8191. -/
theorem pitchBend_half_center_witness :
    (0 ≤ pitchBendValue 640 1280 ∧ pitchBendValue 640 1280 ≤ 16383) ∧
    (pitchBendValue 640 (2 * 640) = 8191 ∨ pitchBendValue 640 (2 * 640) = 8192) :=
  pitchBend_half_center 640 1280 (by norm_num)

theorem headD_insertionSort_min {l : List ℕ} {m : ℕ} (hm : m ∈ l)
    (hle : ∀ x ∈ l, m ≤ x) :
    (List.insertionSort (· ≤ ·) l).headD 0 = m := by
  rcases hs : List.insertionSort (· ≤ ·) l with _ | ⟨b, bs⟩
  · have hmem : m ∈ List.insertionSort (· ≤ ·) l :=
      (List.mem_insertionSort (· ≤ ·)).mpr hm
    rw [hs] at hmem
    exact absurd hmem (List.not_mem_nil m)
  · have hbmem : b ∈ l := by
      have hb : b ∈ List.insertionSort (· ≤ ·) l := by
        rw [hs]
        exact List.mem_cons_self b bs
      exact (List.mem_insertionSort (· ≤ ·)).mp hb
    have hsorted := List.sorted_insertionSort (· ≤ ·) l
    rw [hs] at hsorted
    have hmmem : m ∈ List.insertionSort (· ≤ ·) l :=
      (List.mem_insertionSort (· ≤ ·)).mpr hm
    rw [hs] at hmmem
    have hbm : b ≤ m := by
      rcases List.mem_cons.mp hmmem with h | h
      · exact h ▸ le_refl m
      · exact List.rel_of_sorted_cons hsorted m h
    exact le_antisymm hbm (hle b hbmem)

theorem get_chord_name_pair (a b : ℕ) (hab : a ≤ b) :
    get_chord_name [a, b] =
      stripOctave (MusicTheoryHelper.note_to_name a) ++ specPairSuffix (b - a) := by
  have hs : List.insertionSort (· ≤ ·) [a, b] = [a, b] :=
    List.Sorted.insertionSort_eq (by simp [List.sorted_cons, hab])
  simp only [get_chord_name, hs, specPairSuffix]
  simp only [List.cons_ne_nil, if_false, reduceCtorEq]
  norm_num
  split_ifs <;> rfl

theorem get_chord_name_triple (a b c : ℕ) (hab : a ≤ b) (hbc : b ≤ c) :
    get_chord_name [a, b, c] =
      stripOctave (MusicTheoryHelper.note_to_name a) ++
        specTriadSuffix (b - a) (c - b) := by
  have hs : List.insertionSort (· ≤ ·) [a, b, c] = [a, b, c] :=
    List.Sorted.insertionSort_eq (by simp [List.sorted_cons, hab, hbc]; omega)
  simp only [get_chord_name, hs, specTriadSuffix]
  simp only [List.cons_ne_nil, if_false, reduceCtorEq]
  norm_num
  split_ifs <;> rfl

theorem get_chord_name_quad (a b c d : ℕ) (hab : a ≤ b) (hbc : b ≤ c)
    (hcd : c ≤ d) :
    get_chord_name [a, b, c, d] =
      stripOctave (MusicTheoryHelper.note_to_name a) ++
        specTriadSuffix (b - a) (c - b) := by
  have hs : List.insertionSort (· ≤ ·) [a, b, c, d] = [a, b, c, d] :=
    List.Sorted.insertionSort_eq (by simp [List.sorted_cons, hab, hbc, hcd]; omega)
  simp only [get_chord_name, hs, specTriadSuffix]
  simp only [List.cons_ne_nil, if_false, reduceCtorEq]
  norm_num
  split_ifs <;> rfl

/-- C6: `get_chord_name` is total on nonempty MIDI-note lists (it never
raises) and always names from the lowest sorted note's 12-tone root: the
result is that root name followed by some suffix; a two-note list gets the
interval suffix m3/M3/P5/Pair, a list of three (or more: the four-note case
is included) notes the first-two-sorted-intervals suffix
Maj/Min/Sus4/Sus2/Triad; in particular
`get_chord_name [60, 64, 67] = "C Maj"`. -/
theorem chord_name_spec (notes : List ℕ) (m r d i1 i2 i3 : ℕ)
    (hne : notes ≠ []) (hm : m ∈ notes) (hle : ∀ x ∈ notes, m ≤ x) :
    (∃ suffix, get_chord_name notes =
      stripOctave (MusicTheoryHelper.note_to_name m) ++ suffix) ∧
    get_chord_name [r, r + d] =
      stripOctave (MusicTheoryHelper.note_to_name r) ++ specPairSuffix d ∧
    get_chord_name [r, r + i1, r + i1 + i2] =
      stripOctave (MusicTheoryHelper.note_to_name r) ++ specTriadSuffix i1 i2 ∧
    get_chord_name [r, r + i1, r + i1 + i2, r + i1 + i2 + i3] =
      stripOctave (MusicTheoryHelper.note_to_name r) ++ specTriadSuffix i1 i2 ∧
    get_chord_name [60, 64, 67] = "C Maj" := by
  refine ⟨?_, ?_, ?_, ?_, by decide⟩
  · simp only [get_chord_name, if_neg hne]
    rw [headD_insertionSort_min hm hle]
    split_ifs
    all_goals first
      | exact ⟨"", (String.append_empty _).symm⟩
      | exact ⟨_, rfl⟩
  · have h := get_chord_name_pair r (r + d) (Nat.le_add_right r d)
    rw [Nat.add_sub_cancel_left r d] at h
    exact h
  · have h := get_chord_name_triple r (r + i1) (r + i1 + i2)
      (Nat.le_add_right r i1) (Nat.le_add_right (r + i1) i2)
    rw [Nat.add_sub_cancel_left r i1, Nat.add_sub_cancel_left (r + i1) i2] at h
    exact h
  · have h := get_chord_name_quad r (r + i1) (r + i1 + i2) (r + i1 + i2 + i3)
      (Nat.le_add_right r i1) (Nat.le_add_right (r + i1) i2)
      (Nat.le_add_right (r + i1 + i2) i3)
    rw [Nat.add_sub_cancel_left r i1, Nat.add_sub_cancel_left (r + i1) i2] at h
    exact h

/-- C6 witness: the concrete C-major triad gets its documented name. -/
theorem chord_name_spec_witness : get_chord_name [60, 64, 67] = "C Maj" :=
  (chord_name_spec [60, 64, 67] 60 60 7 4 3 5 (by decide) (by decide)
    (by decide)).2.2.2.2

/-- C8: cycling the scale three times from D major visits C major and the
pentatonic scale and lands back on exactly the starting state with the
original scale table, up to the forced reset of the previous finger states
and the cleared active-key set; after each single `cycle_scale` call the
previous finger states are all down and the active-key set is empty. -/
theorem cycle_scale_three (s : PianoState)
    (h1 : s.currentScale = "D_Major") (h2 : s.scales = defaultScales) :
    ((cycleScaleState s).bind cycleScaleState).bind cycleScaleState =
      some { s with prevStates := mkAllDown dMajorMap, activeKeys := ∅ } ∧
    (cycleScaleState s).map PianoState.currentScale = some "C_Major" ∧
    ((cycleScaleState s).bind cycleScaleState).map PianoState.currentScale =
      some "Pentatonic" ∧
    (((cycleScaleState s).bind cycleScaleState).bind cycleScaleState).map
      PianoState.currentScale = some "D_Major" ∧
    (((cycleScaleState s).bind cycleScaleState).bind cycleScaleState).map
      PianoState.scales = some defaultScales ∧
    (cycleScaleState s).map prevAllDown = some true ∧
    (cycleScaleState s).map PianoState.activeKeys = some ∅ ∧
    ((cycleScaleState s).bind cycleScaleState).map prevAllDown = some true ∧
    ((cycleScaleState s).bind cycleScaleState).map PianoState.activeKeys =
      some ∅ ∧
    (((cycleScaleState s).bind cycleScaleState).bind cycleScaleState).map
      prevAllDown = some true ∧
    (((cycleScaleState s).bind cycleScaleState).bind cycleScaleState).map
      PianoState.activeKeys = some ∅ := by
  obtain ⟨cs, sc, ps, an, ak, pp, rec, rn, vm, ee, st, pcn, pe⟩ := s
  have h1x : cs = "D_Major" := h1
  have h2x : sc = defaultScales := h2
  subst h1x
  subst h2x
  refine ⟨?_, ?_, ?_, ?_, ?_, ?_, ?_, ?_, ?_, ?_, ?_⟩ <;>
    simp [cycleScaleState, cycleScale, defaultScales, List.findIdx?, List.lookup,
      prevAllDown, allDownB, mkAllDown, dMajorMap, cMajorMap, pentatonicMap]

/-- C8 witness: the three-fold cycle on the initial state. -/
theorem cycle_scale_three_witness :
    ((cycleScaleState initState).bind cycleScaleState).bind cycleScaleState =
      some { initState with prevStates := mkAllDown dMajorMap, activeKeys := ∅ } ∧
    (cycleScaleState initState).map PianoState.currentScale = some "C_Major" ∧
    ((cycleScaleState initState).bind cycleScaleState).map
      PianoState.currentScale = some "Pentatonic" ∧
    (((cycleScaleState initState).bind cycleScaleState).bind
      cycleScaleState).map PianoState.currentScale = some "D_Major" ∧
    (((cycleScaleState initState).bind cycleScaleState).bind
      cycleScaleState).map PianoState.scales = some defaultScales ∧
    (cycleScaleState initState).map prevAllDown = some true ∧
    (cycleScaleState initState).map PianoState.activeKeys = some ∅ ∧
    ((cycleScaleState initState).bind cycleScaleState).map prevAllDown =
      some true ∧
    ((cycleScaleState initState).bind cycleScaleState).map
      PianoState.activeKeys = some ∅ ∧
    (((cycleScaleState initState).bind cycleScaleState).bind
      cycleScaleState).map prevAllDown = some true ∧
    (((cycleScaleState initState).bind cycleScaleState).bind
      cycleScaleState).map PianoState.activeKeys = some ∅ :=
  cycle_scale_three initState rfl rfl

end AirPiano
